import Mathlib

/-!
Shallow embedding of `torch_receptive_field/main.py`.

The layer tree (torch `nn.Module` hierarchy) is modelled by the mutual
inductives `Layer` / `Children`.  Kernel size, stride and padding of a
convolution / max-pool layer are modelled by `Param`: either a plain
integer or a per-axis pair, exactly as in torch where they may be an
`int` or a `tuple`.  Python's arbitrary-precision integers are `ℤ`;
the real-valued registers (`ox`, `oy` and the intermediate `nx`, `ny`
before rounding) are modelled with exact rationals `ℚ` (the Python
code uses floats; all claims are about exact small values, and the
spec's "Numeric semantics" section states real-number semantics).
The `assert` in `get_rf_data` is modelled by `Except String`.
-/

/-- A torch conv/pool hyperparameter: an `int`, or a per-axis `tuple`. -/
inductive Param where
  | scalar (v : ℤ)
  | pair (a b : ℤ)

/-- `x[0] if isinstance(x, tuple) else x` (main.py lines 73-75). -/
def Param.first : Param → ℤ
  | .scalar v => v
  | .pair a _ => a

mutual
/-- A node of the module tree.  `conv2d` = `nn.Conv2d`, `maxpool2d` =
`nn.MaxPool2d`, `sequential` = `nn.Sequential`, `custom` = any other
module with submodules, `leaf` = any other module without submodules
(e.g. `nn.ReLU`), with `tname` its class name. -/
inductive Layer where
  | conv2d (kernel_size stride padding : Param) : Layer
  | maxpool2d (kernel_size stride padding : Param) : Layer
  | sequential (children : Children) : Layer
  | custom (tname : String) (children : Children) : Layer
  | leaf (tname : String) : Layer

/-- The named, ordered submodules of a module (`module.named_children()`). -/
inductive Children where
  | nil : Children
  | cons (name : String) (child : Layer) (rest : Children) : Children
end

/-- `module.children()` projected to our tree: conv/pool/leaf torch modules
have no submodules. -/
def Layer.childrenC : Layer → Children
  | .sequential cs => cs
  | .custom _ cs => cs
  | _ => .nil

/-- Number of children, `len(list(module.children()))`. -/
def Children.length : Children → ℕ
  | .nil => 0
  | .cons _ _ rest => 1 + rest.length

/-- main.py line 45: `len(list(module.children())) > 0`. -/
def is_custom_module (l : Layer) : Bool :=
  0 < l.childrenC.length

/-- `isinstance(layer, nn.Sequential)`. -/
def Layer.isSeq : Layer → Bool
  | .sequential _ => true
  | _ => false

/-- `isinstance(module, nn.Conv2d)` (main.py line 79, tested on the root). -/
def Layer.isConv2dRoot : Layer → Bool
  | .conv2d .. => true
  | _ => false

/-- `layer.__class__.__name__`. -/
def Layer.className : Layer → String
  | .conv2d .. => "Conv2d"
  | .maxpool2d .. => "MaxPool2d"
  | .sequential _ => "Sequential"
  | .custom t _ => t
  | .leaf t => t

/-- For a `Conv2d`/`MaxPool2d` layer, the `(k, s, p)` scalars read by
main.py lines 73-75 (first tuple component if the parameter is a tuple);
`none` for every other layer kind. -/
def Layer.spatialParams : Layer → Option (ℤ × ℤ × ℤ)
  | .conv2d kk ss pp => some (kk.first, ss.first, pp.first)
  | .maxpool2d kk ss pp => some (kk.first, ss.first, pp.first)
  | _ => none

mutual
/-- `module.named_modules()` with a path accumulator: paths are kept as
lists of name segments (torch joins them with `"."`; torch forbids `"."`
inside a single name, so the segment list is a faithful encoding of the
dotted string).  Yields the node itself first, then all descendants,
pre-order (main.py `iter_module`, lines 34-38). -/
def iter_module_from : List String → Layer → List (List String × Layer)
  | pre, .sequential cs => (pre, .sequential cs) :: iter_children pre cs
  | pre, .custom t cs => (pre, .custom t cs) :: iter_children pre cs
  | pre, l => [(pre, l)]

/-- The concatenated pre-order traversals of a child list. -/
def iter_children : List String → Children → List (List String × Layer)
  | _, .nil => []
  | pre, .cons n c rest => iter_module_from (pre ++ [n]) c ++ iter_children pre rest
end

/-- main.py `iter_module(module)`: traversal starting at the root, whose
torch name is the empty path. -/
def iter_module (module : Layer) : List (List String × Layer) :=
  iter_module_from [] module

/-- Rebuilds torch's dotted name from the segments (`named_modules`
builds `prefix + "." + name`, starting from the empty prefix). -/
def dottedPath : List String → String
  | [] => ""
  | [a] => a
  | a :: b :: rest => a ++ "." ++ dottedPath (b :: rest)

/-- main.py `get_layer_names` (lines 41-42). -/
def get_layer_names (module : Layer) : List String :=
  (iter_module module).map (fun q => dottedPath q.1)

/-- main.py line 59: `0 if layer_name_dotted == "" else
len(layer_name_dotted.split("."))`; on the segment encoding a
non-empty dotted path with `d` dots splits into `d + 1` segments. -/
def pathDepth (segs : List String) : ℕ :=
  if segs.isEmpty then 0 else segs.length

/-- main.py lines 61-66: the cosmetic display label. -/
def displayName (segs : List String) : String :=
  match segs with
  | [] => ""
  | [n] => "├─ " ++ n
  | a :: b :: rest =>
      String.join (List.replicate ((a :: b :: rest).length - 1) "|    ")
        ++ "└─ " ++ ((b :: rest).getLastD a)

/-- main.py `LayerRFData` (lines 11-19). -/
structure LayerRFData where
  depth : ℕ
  name : String
  type : String
  output_shape : Option (ℤ × ℤ)
  origin : Option (ℚ × ℚ)
  jump : Option ℤ
  receptive_field : Option ℤ
deriving DecidableEq, Repr, Inhabited

/-- The 4-tuple moved around by `values` / `replace_values`. -/
abbrev RFValues :=
  Option (ℤ × ℤ) × Option (ℚ × ℚ) × Option ℤ × Option ℤ

/-- main.py `LayerRFData.values` (lines 21-23). -/
def LayerRFData.values (x : LayerRFData) : RFValues :=
  (x.output_shape, x.origin, x.jump, x.receptive_field)

/-- main.py `LayerRFData.replace_values` (lines 25-31). -/
def LayerRFData.replace_values (x : LayerRFData) (v : RFValues) : LayerRFData :=
  ⟨x.depth, x.name, x.type, v.1, v.2.1, v.2.2.1, v.2.2.2⟩

/-- The four running registers of `get_rf_data` (lines 52-54):
`nx, ny` current output dims, `ox, oy` origin, `j` jump, `r` receptive
field. -/
structure RFState where
  nx : ℤ
  ny : ℤ
  ox : ℚ
  oy : ℚ
  j : ℤ
  r : ℤ
deriving DecidableEq, Repr

/-- Lines 52-54: `nx, ny = input_shape; ox = oy = 0.5; j = r = 1`. -/
def initState (input_shape : ℤ × ℤ) : RFState :=
  ⟨input_shape.1, input_shape.2, 1/2, 1/2, 1, 1⟩

/-- Lines 77-90: the register update for one `Conv2d`/`MaxPool2d` layer
with scalars `k, s, p`.  `rootIsConv` is `isinstance(module, nn.Conv2d)`
(the *root*, line 79): in that case a fractional output dimension fires
the `assert` (modelled as an error), otherwise the dimension is floored. -/
def convUpdate (rootIsConv : Bool) (st : RFState) (k s p : ℤ) :
    Except String RFState :=
  let qx : ℚ := ((st.nx : ℚ) + 2 * (p : ℚ) - (k : ℚ)) / (s : ℚ) + 1
  let qy : ℚ := ((st.ny : ℚ) + 2 * (p : ℚ) - (k : ℚ)) / (s : ℚ) + 1
  let step : ℤ → ℤ → RFState := fun nx' ny' =>
    ⟨nx', ny',
     st.ox + (((k : ℚ) - 1) / 2 - (p : ℚ)) * (st.j : ℚ),
     st.oy + (((k : ℚ) - 1) / 2 - (p : ℚ)) * (st.j : ℚ),
     st.j * s,
     st.r + (k - 1) * st.j⟩
  if rootIsConv then
    if (⌊qx⌋ : ℚ) = qx ∧ (⌊qy⌋ : ℚ) = qy then .ok (step ⌊qx⌋ ⌊qy⌋)
    else .error "AssertionError"
  else .ok (step ⌊qx⌋ ⌊qy⌋)

/-- The record-building loop of `get_rf_data` (lines 56-92), as a fold
over the flattened `(path, layer)` list threading the registers. -/
def propagate (rootIsConv : Bool) :
    RFState → List (List String × Layer) → Except String (List LayerRFData)
  | _, [] => .ok []
  | st, (segs, l) :: rest =>
    let mk : RFValues → LayerRFData := fun v =>
      ⟨pathDepth segs, displayName segs, l.className, v.1, v.2.1, v.2.2.1, v.2.2.2⟩
    if l.isSeq || is_custom_module l then
      (propagate rootIsConv st rest).map (mk (none, none, none, none) :: ·)
    else
      match l.spatialParams with
      | some (k, s, p) =>
        match convUpdate rootIsConv st k s p with
        | .error e => .error e
        | .ok st' =>
          (propagate rootIsConv st' rest).map
            (mk (some (st'.nx, st'.ny), some (st'.ox, st'.oy), some st'.j, some st'.r) :: ·)
      | none =>
        (propagate rootIsConv st rest).map
          (mk (some (st.nx, st.ny), some (st.ox, st.oy), some st.j, some st.r) :: ·)

/-- Lines 98-102: starting from `v` = the record's own values, walk the
records after it while their depth exceeds `max_depth`, keeping the
values of the last one seen. -/
def scanValues (max_depth : ℕ) : List LayerRFData → RFValues → RFValues
  | [], v => v
  | x :: rest, v =>
    if max_depth < x.depth then scanValues max_depth rest x.values else v

/-- Lines 94-108: the depth-collapse pass building `data_clean`.  The
Python body is two sequential `if`s: a record at exactly `max_depth`
is first rewritten via `replace_values` (its depth is unchanged, so the
following `depth <= max_depth` append always fires for it), records at
smaller depth pass unchanged, deeper records are dropped. -/
def collapse (max_depth : ℕ) : List LayerRFData → List LayerRFData
  | [] => []
  | x :: rest =>
    if x.depth = max_depth then
      x.replace_values (scanValues max_depth rest x.values) :: collapse max_depth rest
    else if x.depth ≤ max_depth then x :: collapse max_depth rest
    else collapse max_depth rest

/-- main.py `get_rf_data` (lines 51-108).  The Python default for
`max_depth` is `99999`. -/
def get_rf_data (module : Layer) (input_shape : ℤ × ℤ) (max_depth : ℕ) :
    Except String (List LayerRFData) :=
  (propagate module.isConv2dRoot (initState input_shape) (iter_module module)).map
    (collapse max_depth)

/-! ## Concrete networks used in the claims -/

/-- Two stacked convolutions (kernel 3, stride 2, padding 1) in a
`Sequential` root. -/
def t2conv : Layer :=
  .sequential (.cons "0" (.conv2d (.scalar 3) (.scalar 2) (.scalar 1))
    (.cons "1" (.conv2d (.scalar 3) (.scalar 2) (.scalar 1)) .nil))

/-- A `Sequential` root holding one convolution (kernel 3, stride 1,
padding 0). -/
def t1conv : Layer :=
  .sequential (.cons "0" (.conv2d (.scalar 3) (.scalar 1) (.scalar 0)) .nil)

/-- A bare convolution as the root module (kernel 3, stride 2, padding 0). -/
def tBareConv : Layer := .conv2d (.scalar 3) (.scalar 2) (.scalar 0)

/-- A `Sequential` root holding a single ReLU: no spatial descendants. -/
def tRelu : Layer := .sequential (.cons "0" (.leaf "ReLU") .nil)

/-- A nested `Sequential` whose inner container ends with a trailing
empty `Sequential` after a convolution. -/
def tTrail : Layer :=
  .sequential (.cons "0"
    (.sequential (.cons "0" (.conv2d (.scalar 3) (.scalar 1) (.scalar 0))
      (.cons "1" (.sequential .nil) .nil))) .nil)

/-- Like `tTrail` but without the trailing empty `Sequential`. -/
def tNoTrail : Layer :=
  .sequential (.cons "0"
    (.sequential (.cons "0" (.conv2d (.scalar 3) (.scalar 1) (.scalar 0)) .nil)) .nil)

/-- Number of `"."` characters in a string. -/
def dotCount (s : String) : ℕ := s.data.count '.'

/-! ## Claim theorems (part 1) -/

/-- C1: for every conv/max-pool layer visited in the nested
(non-root-convolution) case the registers are updated as
`receptive_field' = receptive_field + (k - 1) * jump`,
`origin' = origin + ((k - 1)/2 - p) * jump` on each axis,
`jump' = jump * s`, `n' = floor((n + 2p - k)/s + 1)`; and the two
stacked (kernel 3, stride 2, padding 1) convolutions on input (8, 8)
yield records (output_shape (4,4), jump 2, receptive_field 3) then
(output_shape (2,2), jump 4, receptive_field 7). -/
theorem c1_register_update_formulas :
    (∀ (st : RFState) (k s p : ℤ),
      convUpdate false st k s p = .ok
        ⟨⌊((st.nx : ℚ) + 2 * (p : ℚ) - (k : ℚ)) / (s : ℚ) + 1⌋,
         ⌊((st.ny : ℚ) + 2 * (p : ℚ) - (k : ℚ)) / (s : ℚ) + 1⌋,
         st.ox + (((k : ℚ) - 1) / 2 - (p : ℚ)) * (st.j : ℚ),
         st.oy + (((k : ℚ) - 1) / 2 - (p : ℚ)) * (st.j : ℚ),
         st.j * s,
         st.r + (k - 1) * st.j⟩) ∧
    get_rf_data t2conv (8, 8) 99999 = .ok
      [⟨0, "", "Sequential", none, none, none, none⟩,
       ⟨1, "├─ 0", "Conv2d", some (4, 4), some (1/2, 1/2), some 2, some 3⟩,
       ⟨1, "├─ 1", "Conv2d", some (2, 2), some (1/2, 1/2), some 4, some 7⟩] := by
  constructor
  · intro st k s p
    rfl
  · norm_num [get_rf_data, propagate, iter_module, iter_module_from, iter_children,
      convUpdate, initState, collapse, scanValues, Layer.isConv2dRoot, Layer.isSeq,
      is_custom_module, Layer.childrenC, Children.length, Layer.spatialParams, Param.first,
      pathDepth, displayName, Layer.className, LayerRFData.values,
      LayerRFData.replace_values, t2conv, Except.map]
    decide

/-- C2 counterexample: for the root containing one convolution
(kernel 3, stride 1, padding 0) on input (5, 5), the unique spatial
(non-null) record's origin is (1.5, 1.5) — not (1.0, 1.0) as claimed
(0.5 + ((3-1)/2 - 0) * 1 = 1.5). -/
theorem c2_counterexample_origin :
    (get_rf_data t1conv (5, 5) 99999).map (List.filterMap (·.origin))
      = .ok [((3 : ℚ)/2, (3 : ℚ)/2)] ∧
    ((3 : ℚ)/2, (3 : ℚ)/2) ≠ ((1 : ℚ), (1 : ℚ)) := by
  constructor
  · norm_num [get_rf_data, propagate, iter_module, iter_module_from, iter_children,
      convUpdate, initState, collapse, scanValues, Layer.isConv2dRoot, Layer.isSeq,
      is_custom_module, Layer.childrenC, Children.length, Layer.spatialParams, Param.first,
      pathDepth, displayName, Layer.className, LayerRFData.values,
      LayerRFData.replace_values, t1conv, Except.map, List.filterMap_cons]
  · norm_num

/-- C2 amended: the root containing one convolution (kernel 3, stride 1,
padding 0) on input (5, 5) yields exactly one spatial (non-null-scalar)
record, with output_shape (3, 3), jump 1, receptive_field 3 and origin
(1.5, 1.5). -/
theorem c2_single_conv_yields_one_spatial_record :
    get_rf_data t1conv (5, 5) 99999 = .ok
      [⟨0, "", "Sequential", none, none, none, none⟩,
       ⟨1, "├─ 0", "Conv2d", some (3, 3), some (3/2, 3/2), some 1, some 3⟩] := by
  norm_num [get_rf_data, propagate, iter_module, iter_module_from, iter_children,
    convUpdate, initState, collapse, scanValues, Layer.isConv2dRoot, Layer.isSeq,
    is_custom_module, Layer.childrenC, Children.length, Layer.spatialParams, Param.first,
    pathDepth, displayName, Layer.className, LayerRFData.values,
    LayerRFData.replace_values, t1conv, Except.map]
  decide

/-- C3: whenever the root module is itself a bare convolution and the
computed output dimension `(n + 2p - k)/s + 1` is not an exact integer
on one of the two axes, `get_rf_data` fails loudly (the root `assert`)
instead of flooring. -/
theorem c3_root_conv_fractional_dim_raises :
    ∀ (kk ss pp : Param) (sh : ℤ × ℤ) (D : ℕ),
      ¬ ((⌊((sh.1 : ℚ) + 2 * (pp.first : ℚ) - (kk.first : ℚ)) / (ss.first : ℚ) + 1⌋ : ℚ)
            = ((sh.1 : ℚ) + 2 * (pp.first : ℚ) - (kk.first : ℚ)) / (ss.first : ℚ) + 1 ∧
          (⌊((sh.2 : ℚ) + 2 * (pp.first : ℚ) - (kk.first : ℚ)) / (ss.first : ℚ) + 1⌋ : ℚ)
            = ((sh.2 : ℚ) + 2 * (pp.first : ℚ) - (kk.first : ℚ)) / (ss.first : ℚ) + 1) →
      get_rf_data (.conv2d kk ss pp) sh D = .error "AssertionError" := by
  intro kk ss pp sh D hfrac
  have hcu : convUpdate (Layer.conv2d kk ss pp).isConv2dRoot (initState sh)
      kk.first ss.first pp.first = .error "AssertionError" := by
    rw [convUpdate]
    split
    · split
      · rename_i hcond
        exact absurd hcond hfrac
      · rfl
    · rename_i hfalse
      exact absurd rfl hfalse
  rw [get_rf_data, show iter_module (Layer.conv2d kk ss pp)
      = [([], Layer.conv2d kk ss pp)] from rfl, propagate,
    if_neg (by simp [Layer.isSeq, is_custom_module, Layer.childrenC, Children.length])]
  simp only [Layer.spatialParams, hcu]
  rfl

/-- Witness for `c3_root_conv_fractional_dim_raises`: kernel 3,
stride 2, padding 0 on input (6, 6), where (6 - 3)/2 + 1 = 2.5 is not
an integer. -/
theorem c3_root_conv_fractional_dim_raises_witness :
    get_rf_data tBareConv (6, 6) 99999 = .error "AssertionError" := by
  have h := c3_root_conv_fractional_dim_raises (.scalar 3) (.scalar 2) (.scalar 0)
    (6, 6) 99999 (by norm_num [Param.first])
  exact h

/-- C4 counterexample: the layer at dotted path `"0"` (one segment, zero
`"."` separators) is stored with depth 1, not 0: the stored depth is the
number of separators plus one for non-root layers. -/
theorem c4_counterexample_depth_vs_separators :
    (iter_module t1conv).map Prod.fst = [[], ["0"]] ∧
    (get_rf_data t1conv (5, 5) 99999).map (List.map (·.depth)) = .ok [0, 1] ∧
    dotCount (dottedPath ["0"]) = 0 ∧ (1 : ℕ) ≠ 0 := by
  refine ⟨?_, ?_, by decide, by decide⟩
  · simp [iter_module, iter_module_from, iter_children, t1conv]
  · norm_num [get_rf_data, propagate, iter_module, iter_module_from, iter_children,
      convUpdate, initState, collapse, scanValues, Layer.isConv2dRoot, Layer.isSeq,
      is_custom_module, Layer.childrenC, Children.length, Layer.spatialParams, Param.first,
      pathDepth, displayName, Layer.className, LayerRFData.values,
      LayerRFData.replace_values, t1conv, Except.map]

/-- For dot-free segments, the dotted path of `n + 1` segments has `n`
dots. -/
theorem dotCount_dottedPath :
    ∀ (segs : List String), segs ≠ [] → (∀ seg ∈ segs, dotCount seg = 0) →
      dotCount (dottedPath segs) + 1 = segs.length
  | [], h, _ => absurd rfl h
  | [a], _, hfree => by
    have ha : dotCount a = 0 := hfree a (by simp)
    simp [dottedPath, ha]
  | a :: b :: rest, _, hfree => by
    have ih := dotCount_dottedPath (b :: rest) (by simp)
      (fun seg hs => hfree seg (List.mem_cons_of_mem a hs))
    have ha : dotCount a = 0 := hfree a (by simp)
    have key : dotCount (dottedPath (a :: b :: rest))
        = dotCount a + 1 + dotCount (dottedPath (b :: rest)) := by
      show ((a ++ "." ++ dottedPath (b :: rest))).data.count '.' = _
      rw [String.data_append, String.data_append, List.count_append, List.count_append]
      rfl
    rw [key, ha, List.length_cons]
    omega

/-- C4 amended: for every layer yielded by the flattener (with torch's
dot-free module names), the stored depth is 0 for the empty root path
and the number of `"."` separators in the dotted path **plus one** for
every other layer. -/
theorem c4_depth_is_separator_count_plus_one :
    ∀ (m : Layer) (q : List String × Layer), q ∈ iter_module m →
      (∀ seg ∈ q.1, dotCount seg = 0) →
      pathDepth q.1 = if q.1 = [] then 0 else dotCount (dottedPath q.1) + 1 := by
  intro m q _ hfree
  rcases hq : q.1 with _ | ⟨a, segs⟩
  · simp [pathDepth]
  · rw [hq] at hfree
    have := dotCount_dottedPath (a :: segs) (by simp) hfree
    simp only [pathDepth, List.isEmpty_cons, Bool.false_eq_true, if_false,
      if_neg (List.cons_ne_nil a segs)]
    omega

/-- Witness for `c4_depth_is_separator_count_plus_one` at the layer of
path `["0"]` in `t1conv`. -/
theorem c4_depth_is_separator_count_plus_one_witness :
    ((["0"], Layer.conv2d (.scalar 3) (.scalar 1) (.scalar 0)) ∈ iter_module t1conv) ∧
    pathDepth ["0"]
      = if (["0"] : List String) = [] then 0 else dotCount (dottedPath ["0"]) + 1 := by
  have hmem : ((["0"], Layer.conv2d (.scalar 3) (.scalar 1) (.scalar 0)) ∈ iter_module t1conv) := by
    simp [iter_module, iter_module_from, iter_children, t1conv]
  refine ⟨hmem, c4_depth_is_separator_count_plus_one t1conv _ hmem ?_⟩
  intro seg hs
  simp only [List.mem_singleton] at hs
  subst hs
  decide

/-- C8 counterexample: `tRelu` (a Sequential holding only a ReLU) has no
spatial descendants, yet `get_rf_data` returns **two** records, and the
ReLU's record carries non-null scalars (the initial register values). -/
theorem c8_counterexample_passthrough_descendant :
    get_rf_data tRelu (5, 5) 99999 = .ok
      [⟨0, "", "Sequential", none, none, none, none⟩,
       ⟨1, "├─ 0", "ReLU", some (5, 5), some (1/2, 1/2), some 1, some 1⟩] ∧
    (get_rf_data tRelu (5, 5) 99999).map List.length ≠ .ok 1 := by
  have h : get_rf_data tRelu (5, 5) 99999 = .ok
      [⟨0, "", "Sequential", none, none, none, none⟩,
       ⟨1, "├─ 0", "ReLU", some (5, 5), some (1/2, 1/2), some 1, some 1⟩] := by
    norm_num [get_rf_data, propagate, iter_module, iter_module_from, iter_children,
      convUpdate, initState, collapse, scanValues, Layer.isConv2dRoot, Layer.isSeq,
      is_custom_module, Layer.childrenC, Children.length, Layer.spatialParams, Param.first,
      pathDepth, displayName, Layer.className, LayerRFData.values,
      LayerRFData.replace_values, tRelu, Except.map]
    decide
  rw [h]
  exact ⟨rfl, by simp [Except.map]⟩

/-- C9: when kernel size, stride or padding is a per-axis pair, only the
first axis's value is used in the scalar propagation: the extracted
`(k, s, p)` equal those of the symmetric scalar configuration, the
second components are ignored entirely by `propagate`, and no error is
raised for the asymmetric configuration. -/
theorem c9_pair_params_use_first_axis_only :
    ∀ (a b b' c d d' e f f' : ℤ),
      (Layer.conv2d (.pair a b) (.pair c d) (.pair e f)).spatialParams
        = (Layer.conv2d (.scalar a) (.scalar c) (.scalar e)).spatialParams ∧
      (Layer.maxpool2d (.pair a b) (.pair c d) (.pair e f)).spatialParams
        = (Layer.maxpool2d (.scalar a) (.scalar c) (.scalar e)).spatialParams ∧
      ∀ (rc : Bool) (st : RFState) (segs : List String)
        (rest : List (List String × Layer)),
        propagate rc st ((segs, .conv2d (.pair a b) (.pair c d) (.pair e f)) :: rest)
          = propagate rc st ((segs, .conv2d (.pair a b') (.pair c d') (.pair e f')) :: rest) ∧
        propagate rc st ((segs, .maxpool2d (.pair a b) (.pair c d) (.pair e f)) :: rest)
          = propagate rc st ((segs, .maxpool2d (.pair a b') (.pair c d') (.pair e f')) :: rest) := by
  intro a b b' c d d' e f f'
  exact ⟨rfl, rfl, fun rc st segs rest => ⟨rfl, rfl⟩⟩

/-- C10 amended, concrete part: collapsing `tTrail` (inner Sequential =
[conv, empty Sequential]) to depth 1 leaves the depth-1 record all-null
because the last deep descendant is a container record, whereas the same
network without the trailing empty Sequential (`tNoTrail`) folds the
convolution's non-null state into the depth-1 record. -/
theorem c10_trailing_container_folds_null :
    get_rf_data tTrail (5, 5) 1 = .ok
      [⟨0, "", "Sequential", none, none, none, none⟩,
       ⟨1, "├─ 0", "Sequential", none, none, none, none⟩] ∧
    get_rf_data tNoTrail (5, 5) 1 = .ok
      [⟨0, "", "Sequential", none, none, none, none⟩,
       ⟨1, "├─ 0", "Sequential", some (3, 3), some (3/2, 3/2), some 1, some 3⟩] := by
  constructor
  · norm_num [get_rf_data, propagate, iter_module, iter_module_from, iter_children,
      convUpdate, initState, collapse, scanValues, Layer.isConv2dRoot, Layer.isSeq,
      is_custom_module, Layer.childrenC, Children.length, Layer.spatialParams, Param.first,
      pathDepth, displayName, Layer.className, LayerRFData.values,
      LayerRFData.replace_values, tTrail, Except.map]
    decide
  · norm_num [get_rf_data, propagate, iter_module, iter_module_from, iter_children,
      convUpdate, initState, collapse, scanValues, Layer.isConv2dRoot, Layer.isSeq,
      is_custom_module, Layer.childrenC, Children.length, Layer.spatialParams, Param.first,
      pathDepth, displayName, Layer.className, LayerRFData.values,
      LayerRFData.replace_values, tNoTrail, Except.map]
    decide

/-! ## Structural lemmas about the flattener -/

/-- Every layer kind flattens to itself followed by its children's
traversals (childless kinds have `childrenC = .nil`). -/
theorem iter_module_from_eq (pre : List String) (l : Layer) :
    iter_module_from pre l = (pre, l) :: iter_children pre l.childrenC := by
  cases l <;> rfl

/-- `pathDepth` is just the segment count (`0 = []` agree). -/
theorem pathDepth_eq_length (segs : List String) : pathDepth segs = segs.length := by
  cases segs <;> simp [pathDepth]

mutual
/-- All paths inside a subtree extend the subtree's own prefix. -/
theorem iter_module_from_path_le : ∀ (l : Layer) (pre : List String),
    ∀ q ∈ iter_module_from pre l, pre.length ≤ q.1.length
  | .conv2d _ _ _, _, _, hq => by rw [List.mem_singleton.mp hq]
  | .maxpool2d _ _ _, _, _, hq => by rw [List.mem_singleton.mp hq]
  | .leaf _, _, _, hq => by rw [List.mem_singleton.mp hq]
  | .sequential cs, pre, q, hq => by
    rcases List.mem_cons.mp hq with h | h
    · rw [h]
    · have := iter_children_path_lt cs pre q h
      omega
  | .custom t cs, pre, q, hq => by
    rcases List.mem_cons.mp hq with h | h
    · rw [h]
    · have := iter_children_path_lt cs pre q h
      omega

/-- All paths below a node's children are strictly longer than the
node's prefix. -/
theorem iter_children_path_lt : ∀ (cs : Children) (pre : List String),
    ∀ q ∈ iter_children pre cs, pre.length + 1 ≤ q.1.length
  | .nil, pre, q, hq => by simp [iter_children] at hq
  | .cons n c rest, pre, q, hq => by
    rcases List.mem_append.mp hq with h | h
    · have := iter_module_from_path_le c (pre ++ [n]) q h
      simpa using this
    · exact iter_children_path_lt rest pre q h
end

/-- The first element yielded below a node's children sits exactly one
level deeper than the node. -/
theorem iter_children_head_len (cs : Children) (pre : List String) :
    ∀ q, (iter_children pre cs).head? = some q → q.1.length = pre.length + 1 := by
  cases cs with
  | nil => simp [iter_children]
  | cons n c rest =>
    intro q hq
    rw [show iter_children pre (.cons n c rest)
        = iter_module_from (pre ++ [n]) c ++ iter_children pre rest from rfl,
      iter_module_from_eq, List.cons_append, List.head?_cons] at hq
    rw [(Option.some.injEq _ _).mp hq.symm]
    simp

/-! ## Structural lemmas about `propagate` and `collapse` -/

/-- One-step inversion for `propagate` on a cons cell. -/
theorem propagate_cons (rc : Bool) (st : RFState) (segs : List String) (l : Layer)
    (rest : List (List String × Layer)) (data : List LayerRFData)
    (h : propagate rc st ((segs, l) :: rest) = .ok data) :
    ∃ rec tail st2, data = rec :: tail ∧ propagate rc st2 rest = .ok tail ∧
      rec.depth = pathDepth segs ∧
      (rec.jump ≠ none → (l.isSeq || is_custom_module l) = false ∧ rec.jump = some st2.j) := by
  rw [propagate] at h
  by_cases hc : (l.isSeq || is_custom_module l) = true
  · rw [if_pos hc] at h
    cases hp : propagate rc st rest with
    | error e => rw [hp] at h; simp [Except.map] at h
    | ok tail =>
      rw [hp, Except.map] at h
      refine ⟨_, tail, st, (Except.ok.injEq _ _).mp h.symm, hp, rfl, ?_⟩
      intro hj
      exact absurd rfl hj
  · rw [if_neg hc] at h
    cases hsp : l.spatialParams with
    | none =>
      simp only [hsp] at h
      cases hp : propagate rc st rest with
      | error e => rw [hp] at h; simp [Except.map] at h
      | ok tail =>
        rw [hp, Except.map] at h
        exact ⟨_, tail, st, (Except.ok.injEq _ _).mp h.symm, hp, rfl,
          fun _ => ⟨Bool.not_eq_true _ ▸ hc, rfl⟩⟩
    | some ksp =>
      obtain ⟨k, s, p⟩ := ksp
      simp only [hsp] at h
      cases hcu : convUpdate rc st k s p with
      | error e => simp only [hcu] at h; simp at h
      | ok st' =>
        simp only [hcu] at h
        cases hp : propagate rc st' rest with
        | error e => rw [hp] at h; simp [Except.map] at h
        | ok tail =>
          rw [hp, Except.map] at h
          exact ⟨_, tail, st', (Except.ok.injEq _ _).mp h.symm, hp, rfl,
            fun _ => ⟨Bool.not_eq_true _ ▸ hc, rfl⟩⟩

/-- The depths of the produced records are the path depths of the
flattened input, in order. -/
theorem propagate_depths : ∀ (flat : List (List String × Layer)) (rc : Bool)
    (st : RFState) (data : List LayerRFData), propagate rc st flat = .ok data →
    data.map (·.depth) = flat.map (fun q => pathDepth q.1)
  | [], _, _, data, h => by
    rw [propagate] at h
    rw [← (Except.ok.injEq _ _).mp h]
    rfl
  | (segs, l) :: rest, rc, st, data, h => by
    obtain ⟨rec, tail, st2, rfl, hp, hd, -⟩ := propagate_cons rc st segs l rest data h
    rw [List.map_cons, List.map_cons, hd, propagate_depths rest rc st2 tail hp]

/-- Replacing a record's values by its own values is the identity. -/
theorem replace_values_self (x : LayerRFData) : x.replace_values x.values = x := rfl

/-- `getLastD` commutes with `map`. -/
theorem getLastD_map {α β : Type} (f : α → β) : ∀ (l : List α) (a : α),
    (l.map f).getLastD (f a) = f (l.getLastD a)
  | [], _ => rfl
  | b :: t, a => by
    rw [List.map_cons, List.getLastD_cons, List.getLastD_cons, getLastD_map f t b]

/-- If every record after the scanned one is deeper than `max_depth`,
the scan returns the values of the last of them (or the start values
when there are none). -/
theorem scanValues_all_gt (D : ℕ) : ∀ (l : List LayerRFData) (v : RFValues),
    (∀ x ∈ l, D < x.depth) →
    scanValues D l v = (l.map (fun x => x.values)).getLastD v
  | [], _, _ => rfl
  | x :: rest, v, h => by
    rw [scanValues, if_pos (h x (List.mem_cons_self x rest)),
      scanValues_all_gt D rest x.values (fun y hy => h y (List.mem_cons_of_mem x hy)),
      List.map_cons, List.getLastD_cons]

/-- Records deeper than `max_depth` at the front are all dropped. -/
theorem collapse_append_gt (D : ℕ) : ∀ (pre suf : List LayerRFData),
    (∀ x ∈ pre, D < x.depth) → collapse D (pre ++ suf) = collapse D suf
  | [], _, _ => rfl
  | x :: pre, suf, h => by
    have hx := h x (List.mem_cons_self x pre)
    rw [List.cons_append, collapse, if_neg (by omega), if_neg (by omega),
      collapse_append_gt D pre suf (fun y hy => h y (List.mem_cons_of_mem x hy))]

/-- A list of records all deeper than `max_depth` collapses to nothing. -/
theorem collapse_all_gt (D : ℕ) (l : List LayerRFData)
    (h : ∀ x ∈ l, D < x.depth) : collapse D l = [] := by
  have := collapse_append_gt D l [] h
  simpa using this

/-- If every record's depth is at most `max_depth`, the collapse is the
identity. -/
theorem collapse_all_le (D : ℕ) : ∀ (l : List LayerRFData),
    (∀ x ∈ l, x.depth ≤ D) → collapse D l = l
  | [], _ => rfl
  | x :: rest, h => by
    have ih := collapse_all_le D rest (fun y hy => h y (List.mem_cons_of_mem x hy))
    by_cases hx : x.depth = D
    · have hscan : scanValues D rest x.values = x.values := by
        cases rest with
        | nil => rfl
        | cons y t =>
          rw [scanValues, if_neg (by have := h y (by simp); omega)]
      rw [collapse, if_pos hx, hscan, replace_values_self, ih]
    · rw [collapse, if_neg hx, if_pos (h x (List.mem_cons_self x rest)), ih]

/-- C5: with `max_depth = 0` the result is exactly one record — the
root's (depth 0) — whose four scalar fields are the values of the last
record of the full traversal (the terminal state of the whole tree; the
root's own values if it has no descendants). -/
theorem c5_max_depth_zero_collapses_to_root :
    ∀ (m : Layer) (sh : ℤ × ℤ) (data : List LayerRFData),
      propagate m.isConv2dRoot (initState sh) (iter_module m) = .ok data →
      get_rf_data m sh 0
        = .ok [(data.headI).replace_values ((data.getLastD default).values)] ∧
      (data.headI).depth = 0 := by
  intro m sh data h
  have h' := h
  rw [iter_module, iter_module_from_eq] at h'
  obtain ⟨rec, tail, st2, hdata, hp, hd, -⟩ :=
    propagate_cons m.isConv2dRoot (initState sh) [] m _ data h'
  have hd0 : rec.depth = 0 := by rw [hd]; rfl
  have htail : ∀ x ∈ tail, 0 < x.depth := by
    intro x hx
    have hmapd := propagate_depths _ _ _ _ hp
    have hxm : x.depth ∈ (iter_children [] m.childrenC).map (fun q => pathDepth q.1) := by
      rw [← hmapd]
      exact List.mem_map_of_mem (fun r => r.depth) hx
    obtain ⟨q, hq, hqd⟩ := List.mem_map.mp hxm
    have hlen := iter_children_path_lt m.childrenC [] q hq
    rw [← hqd, pathDepth_eq_length]
    simp only [List.length_nil] at hlen
    omega
  subst hdata
  constructor
  · rw [get_rf_data, h, Except.map, collapse, if_pos hd0,
      scanValues_all_gt 0 tail rec.values htail, collapse_all_gt 0 tail htail]
    rw [show (rec :: tail).headI = rec from rfl, List.getLastD_cons,
      getLastD_map (fun x => x.values) tail rec]
  · exact hd0

/-- Witness for `c5_max_depth_zero_collapses_to_root` on `t1conv`:
the single returned record is the root's carrying the conv layer's
final values. -/
theorem c5_max_depth_zero_collapses_to_root_witness :
    get_rf_data t1conv (5, 5) 0
      = .ok [⟨0, "", "Sequential", some (3, 3), some (3/2, 3/2), some 1, some 3⟩] := by
  have hp : propagate t1conv.isConv2dRoot (initState (5, 5)) (iter_module t1conv) = .ok
      [⟨0, "", "Sequential", none, none, none, none⟩,
       ⟨1, "├─ 0", "Conv2d", some (3, 3), some (3/2, 3/2), some 1, some 3⟩] := by
    norm_num [propagate, iter_module, iter_module_from, iter_children,
      convUpdate, initState, Layer.isConv2dRoot, Layer.isSeq,
      is_custom_module, Layer.childrenC, Children.length, Layer.spatialParams, Param.first,
      pathDepth, displayName, Layer.className, t1conv, Except.map]
    decide
  have := (c5_max_depth_zero_collapses_to_root t1conv (5, 5) _ hp).1
  simpa [LayerRFData.values, LayerRFData.replace_values] using this

/-- C6: whenever `max_depth` is at least every depth occurring in the
record list, the depth-collapse step is the identity and `get_rf_data`
returns the full record list unchanged. -/
theorem c6_collapse_identity_for_large_max_depth :
    ∀ (m : Layer) (sh : ℤ × ℤ) (D : ℕ) (data : List LayerRFData),
      propagate m.isConv2dRoot (initState sh) (iter_module m) = .ok data →
      (∀ x ∈ data, x.depth ≤ D) →
      get_rf_data m sh D = .ok data := by
  intro m sh D data h hle
  rw [get_rf_data, h, Except.map, collapse_all_le D data hle]

/-- Witness for `c6_collapse_identity_for_large_max_depth` on `t1conv`
with `max_depth = 7` (all depths are 0 or 1). -/
theorem c6_collapse_identity_for_large_max_depth_witness :
    get_rf_data t1conv (5, 5) 7 = .ok
      [⟨0, "", "Sequential", none, none, none, none⟩,
       ⟨1, "├─ 0", "Conv2d", some (3, 3), some (3/2, 3/2), some 1, some 3⟩] := by
  have hp : propagate t1conv.isConv2dRoot (initState (5, 5)) (iter_module t1conv) = .ok
      [⟨0, "", "Sequential", none, none, none, none⟩,
       ⟨1, "├─ 0", "Conv2d", some (3, 3), some (3/2, 3/2), some 1, some 3⟩] := by
    norm_num [propagate, iter_module, iter_module_from, iter_children,
      convUpdate, initState, Layer.isConv2dRoot, Layer.isSeq,
      is_custom_module, Layer.childrenC, Children.length, Layer.spatialParams, Param.first,
      pathDepth, displayName, Layer.className, t1conv, Except.map]
    decide
  refine c6_collapse_identity_for_large_max_depth t1conv (5, 5) 7 _ hp ?_
  intro x hx
  simp only [List.mem_cons, List.mem_singleton] at hx
  rcases hx with rfl | rfl | hx
  · decide
  · decide
  · simp at hx

/-- A `Children` list of length 0 is `nil`. -/
theorem Children.eq_nil_of_length_eq_zero : ∀ (cs : Children), cs.length = 0 → cs = .nil
  | .nil, _ => rfl
  | .cons _ _ r, h => by rw [Children.length] at h; omega

/-- A layer that is neither a `Sequential` nor a custom module with
children has no children. -/
theorem childrenC_nil_of_not_container (l : Layer)
    (h : (l.isSeq || is_custom_module l) = false) : l.childrenC = .nil := by
  have h2 := (Bool.or_eq_false_iff.mp h).2
  rw [is_custom_module] at h2
  simp only [decide_eq_false_iff_not, not_lt, Nat.le_zero] at h2
  exact Children.eq_nil_of_length_eq_zero _ h2

/-- In the floor branch (non-`Conv2d` root) a conv/pool step never
fails. -/
theorem convUpdate_false_ok (st : RFState) (k s p : ℤ) :
    ∃ st', convUpdate false st k s p = .ok st' := ⟨_, rfl⟩

/-- With a non-`Conv2d` root the `assert` is unreachable, so the
propagation loop always succeeds. -/
theorem propagate_false_ok : ∀ (flat : List (List String × Layer)) (st : RFState),
    ∃ data, propagate false st flat = .ok data := by
  intro flat
  induction flat with
  | nil => exact fun st => ⟨[], rfl⟩
  | cons q rest ih =>
    intro st
    obtain ⟨segs, l⟩ := q
    rw [propagate]
    by_cases hc : (l.isSeq || is_custom_module l) = true
    · rw [if_pos hc]
      obtain ⟨tail, htail⟩ := ih st
      rw [htail]
      exact ⟨_, rfl⟩
    · rw [if_neg hc]
      cases hsp : l.spatialParams with
      | none =>
        obtain ⟨tail, htail⟩ := ih st
        simp only [hsp, htail]
        exact ⟨_, rfl⟩
      | some ksp =>
        obtain ⟨k, s, p⟩ := ksp
        obtain ⟨st', hst'⟩ := convUpdate_false_ok st k s p
        obtain ⟨tail, htail⟩ := ih st'
        simp only [hsp, hst', htail]
        exact ⟨_, rfl⟩

/-- A container layer (a `Sequential`, or a module with children) is
not a `Conv2d`. -/
theorem not_conv_of_container (m : Layer)
    (hc : (m.isSeq || is_custom_module m) = true) : m.isConv2dRoot = false := by
  cases m <;> simp_all [Layer.isSeq, is_custom_module, Layer.childrenC,
    Children.length, Layer.isConv2dRoot]

/-- C8 amended: a container root (a `Sequential`, or any module with
children) never errors: `get_rf_data` succeeds and its first record is
the root's with all four scalar fields null; the result is exactly that
single null record when the root is an empty `Sequential`; and a bare
passthrough root (childless, neither a `Sequential` nor conv/pool)
instead yields a single record whose scalars are the non-null initial
register values. -/
theorem c8_container_root_record_is_null :
    (∀ sh : ℤ × ℤ, get_rf_data (Layer.sequential .nil) sh 99999 =
        .ok [⟨0, "", "Sequential", none, none, none, none⟩]) ∧
    (∀ (m : Layer) (sh : ℤ × ℤ),
      (m.isSeq || is_custom_module m) = true →
      ∃ rest, get_rf_data m sh 99999
        = .ok (⟨0, "", m.className, none, none, none, none⟩ :: rest)) ∧
    (∀ (m : Layer) (sh : ℤ × ℤ),
      (m.isSeq || is_custom_module m) = false → m.spatialParams = none →
      get_rf_data m sh 99999 = .ok
        [⟨0, "", m.className, some (sh.1, sh.2), some (1/2, 1/2), some 1, some 1⟩]) := by
  refine ⟨?_, ?_, ?_⟩
  · intro sh
    norm_num [get_rf_data, propagate, iter_module, iter_module_from, iter_children,
      initState, collapse, scanValues, Layer.isConv2dRoot, Layer.isSeq,
      is_custom_module, Layer.childrenC, Children.length,
      pathDepth, displayName, Layer.className, Except.map]
  · intro m sh hc
    have hroot := not_conv_of_container m hc
    obtain ⟨tail, htail⟩ :=
      propagate_false_ok (iter_children [] m.childrenC) (initState sh)
    have hprop : propagate false (initState sh) (iter_module m)
        = .ok (⟨0, "", m.className, none, none, none, none⟩ :: tail) := by
      rw [iter_module, iter_module_from_eq, propagate, if_pos hc, htail]
      rfl
    refine ⟨collapse 99999 tail, ?_⟩
    rw [get_rf_data, hroot, hprop, Except.map, collapse,
      if_neg (by simp), if_pos (by simp)]
  · intro m sh hc hsp
    have hnil : m.childrenC = .nil := childrenC_nil_of_not_container m hc
    have hroot : m.isConv2dRoot = false := by
      cases m
      case conv2d kk ss pp => simp [Layer.spatialParams] at hsp
      all_goals rfl
    have hiter : iter_module m = [([], m)] := by
      rw [iter_module, iter_module_from_eq, hnil]
      rfl
    rw [get_rf_data, hroot, hiter, propagate,
      if_neg (by rw [hc]; exact Bool.false_ne_true)]
    simp only [hsp]
    rfl

/-- Witness for `c8_container_root_record_is_null`: the empty
`Sequential` root, a container root, and a bare ReLU root. -/
theorem c8_container_root_record_is_null_witness :
    get_rf_data (Layer.sequential .nil) (7, 7) 99999
      = .ok [⟨0, "", "Sequential", none, none, none, none⟩] ∧
    (∃ rest, get_rf_data (Layer.sequential .nil) (9, 9) 99999
      = .ok (⟨0, "", (Layer.sequential .nil).className, none, none, none, none⟩ :: rest)) ∧
    get_rf_data (Layer.leaf "ReLU") (5, 5) 99999 = .ok
      [⟨0, "", (Layer.leaf "ReLU").className,
        some (5, 5), some (1/2, 1/2), some 1, some 1⟩] :=
  ⟨c8_container_root_record_is_null.1 (7, 7),
   c8_container_root_record_is_null.2.1 (Layer.sequential .nil) (9, 9) (by decide),
   c8_container_root_record_is_null.2.2 (Layer.leaf "ReLU") (5, 5)
     (by decide) (by decide)⟩

/-! ## Monotonicity of `jump` and `receptive_field` -/

/-- However a conv step exits successfully, the new jump and receptive
field are `j * s` and `r + (k - 1) * j`. -/
theorem convUpdate_ok_j_r (rc : Bool) (st st' : RFState) (k s p : ℤ)
    (h : convUpdate rc st k s p = .ok st') :
    st'.j = st.j * s ∧ st'.r = st.r + (k - 1) * st.j := by
  rw [convUpdate] at h
  split at h
  · split at h
    · cases (Except.ok.injEq _ _).mp h
      exact ⟨rfl, rfl⟩
    · simp at h
  · cases (Except.ok.injEq _ _).mp h
    exact ⟨rfl, rfl⟩

/-- The claim's precondition on one layer: a conv/pool layer has
stride ≥ 1 and kernel ≥ 1 (as read through the first-axis projection). -/
def layerOK (l : Layer) : Prop :=
  ∀ k s p, l.spatialParams = some (k, s, p) → 1 ≤ s ∧ 1 ≤ k

/-- Along a propagation starting from a non-negative jump, all emitted
jumps are at least the starting jump and non-decreasing in order, and
all emitted receptive fields are at least the starting one and
non-decreasing in order. -/
theorem propagate_mono : ∀ (flat : List (List String × Layer)) (rc : Bool)
    (st : RFState) (data : List LayerRFData),
    (∀ q ∈ flat, layerOK q.2) → propagate rc st flat = .ok data → 0 ≤ st.j →
    ((∀ v ∈ data.filterMap (fun x => x.jump), st.j ≤ v) ∧
      (data.filterMap (fun x => x.jump)).Pairwise (· ≤ ·)) ∧
    ((∀ v ∈ data.filterMap (fun x => x.receptive_field), st.r ≤ v) ∧
      (data.filterMap (fun x => x.receptive_field)).Pairwise (· ≤ ·))
  | [], _, _, data, _, h, _ => by
    rw [propagate] at h
    rw [← (Except.ok.injEq _ _).mp h]
    simp
  | (segs, l) :: rest, rc, st, data, hok, h, hj => by
    have hokrest : ∀ q ∈ rest, layerOK q.2 :=
      fun q hq => hok q (List.mem_cons_of_mem _ hq)
    rw [propagate] at h
    by_cases hc : (l.isSeq || is_custom_module l) = true
    · rw [if_pos hc] at h
      cases hp : propagate rc st rest with
      | error e => rw [hp] at h; simp [Except.map] at h
      | ok tail =>
        rw [hp, Except.map] at h
        cases (Except.ok.injEq _ _).mp h
        have ih := propagate_mono rest rc st tail hokrest hp hj
        simpa [List.filterMap_cons] using ih
    · rw [if_neg hc] at h
      cases hsp : l.spatialParams with
      | none =>
        simp only [hsp] at h
        cases hp : propagate rc st rest with
        | error e => rw [hp] at h; simp [Except.map] at h
        | ok tail =>
          rw [hp, Except.map] at h
          cases (Except.ok.injEq _ _).mp h
          obtain ⟨⟨ihjb, ihjp⟩, ihrb, ihrp⟩ := propagate_mono rest rc st tail hokrest hp hj
          refine ⟨⟨?_, ?_⟩, ?_, ?_⟩ <;>
            simp only [List.filterMap_cons, List.pairwise_cons]
          · intro v hv
            rcases List.mem_cons.mp hv with rfl | hv
            · exact le_refl _
            · exact ihjb v hv
          · exact ⟨fun b hb => ihjb b hb, ihjp⟩
          · intro v hv
            rcases List.mem_cons.mp hv with rfl | hv
            · exact le_refl _
            · exact ihrb v hv
          · exact ⟨fun b hb => ihrb b hb, ihrp⟩
      | some ksp =>
        obtain ⟨k, s, p⟩ := ksp
        simp only [hsp] at h
        obtain ⟨hs1, hk1⟩ := hok (segs, l) (List.mem_cons_self _ _) k s p hsp
        cases hcu : convUpdate rc st k s p with
        | error e => simp only [hcu] at h; simp at h
        | ok st' =>
          simp only [hcu] at h
          obtain ⟨hj', hr'⟩ := convUpdate_ok_j_r rc st st' k s p hcu
          have hjle : st.j ≤ st'.j := by
            rw [hj']
            exact le_mul_of_one_le_right hj hs1
          have hrle : st.r ≤ st'.r := by
            rw [hr']
            have : 0 ≤ (k - 1) * st.j := mul_nonneg (by omega) hj
            linarith
          have hj0' : 0 ≤ st'.j := le_trans hj hjle
          cases hp : propagate rc st' rest with
          | error e => rw [hp] at h; simp [Except.map] at h
          | ok tail =>
            rw [hp, Except.map] at h
            cases (Except.ok.injEq _ _).mp h
            obtain ⟨⟨ihjb, ihjp⟩, ihrb, ihrp⟩ :=
              propagate_mono rest rc st' tail hokrest hp hj0'
            refine ⟨⟨?_, ?_⟩, ?_, ?_⟩ <;>
              simp only [List.filterMap_cons, List.pairwise_cons]
            · intro v hv
              rcases List.mem_cons.mp hv with rfl | hv
              · exact hjle
              · exact le_trans hjle (ihjb v hv)
            · exact ⟨fun b hb => ihjb b hb, ihjp⟩
            · intro v hv
              rcases List.mem_cons.mp hv with rfl | hv
              · exact hrle
              · exact le_trans hrle (ihrb v hv)
            · exact ⟨fun b hb => ihrb b hb, ihrp⟩

/-- `(x.replace_values v).values = v`. -/
theorem values_replace_values (x : LayerRFData) (v : RFValues) :
    (x.replace_values v).values = v := rfl

/-- The scan of lines 98-102 splits its input into a maximal deep
prefix, whose last values it returns (or the start values when the
prefix is empty), followed by a suffix whose head (if any) is shallow. -/
theorem scanValues_split (D : ℕ) : ∀ (l : List LayerRFData) (v : RFValues),
    ∃ pre suf, l = pre ++ suf ∧ (∀ z ∈ pre, D < z.depth) ∧
      (∀ z, suf.head? = some z → z.depth ≤ D) ∧
      scanValues D l v = (pre.map (fun x => x.values)).getLastD v
  | [], v => ⟨[], [], rfl, by simp, by simp, rfl⟩
  | x :: rest, v => by
    by_cases hx : D < x.depth
    · obtain ⟨pre, suf, heq, hpre, hsuf, hscan⟩ := scanValues_split D rest x.values
      refine ⟨x :: pre, suf, by rw [List.cons_append, ← heq], ?_, hsuf, ?_⟩
      · intro z hz
        rcases List.mem_cons.mp hz with rfl | hz
        · exact hx
        · exact hpre z hz
      · rw [scanValues, if_pos hx, hscan, List.map_cons, List.getLastD_cons]
    · refine ⟨[], x :: rest, rfl, by simp, ?_, by rw [scanValues, if_neg hx]; rfl⟩
      intro z hz
      rw [List.head?_cons] at hz
      rw [← (Option.some.injEq _ _).mp hz]
      omega

/-- The values of the collapsed records form a sublist of the values of
the original records: each surviving record carries the values of some
original record, at strictly increasing original positions. -/
theorem collapse_values_sublist_aux (D : ℕ) :
    ∀ (n : ℕ) (l : List LayerRFData), l.length ≤ n →
    ((collapse D l).map (fun x => x.values)).Sublist (l.map (fun x => x.values))
  | 0, l, h => by
    rw [List.eq_nil_of_length_eq_zero (Nat.le_zero.mp h)]
    simp [collapse]
  | n + 1, [], _ => by simp [collapse]
  | n + 1, x :: rest, h => by
    have hlen : rest.length ≤ n := by
      rw [List.length_cons] at h
      omega
    by_cases hx : x.depth = D
    · obtain ⟨pre, suf, heq, hpre, hsuf, hscan⟩ := scanValues_split D rest x.values
      have hcoll : collapse D rest = collapse D suf := by
        rw [heq]
        exact collapse_append_gt D pre suf hpre
      have hsuflen : suf.length ≤ n := by
        have := congrArg List.length heq
        rw [List.length_append] at this
        omega
      rw [collapse, if_pos hx, hscan, hcoll]
      rcases List.eq_nil_or_concat pre with rfl | ⟨pre', y, hpre'⟩
      · have hrest : rest = suf := by simpa using heq
        rw [List.map_nil, List.getLastD_nil, List.map_cons, values_replace_values,
          hrest, List.map_cons]
        exact List.Sublist.cons₂ _ (collapse_values_sublist_aux D n suf hsuflen)
      · rw [hpre'] at heq hpre hscan ⊢
        rw [List.map_cons, values_replace_values, List.concat_eq_append,
          List.map_append]
        simp only [List.map_cons, List.map_nil]
        rw [List.getLastD_concat, heq, List.concat_eq_append, List.append_assoc]
        simp only [List.map_cons, List.map_append, List.map_nil, List.singleton_append]
        have ih := collapse_values_sublist_aux D n suf hsuflen
        have h1 : (y.values :: (collapse D suf).map (fun x => x.values)).Sublist
            (y.values :: suf.map (fun x => x.values)) := List.Sublist.cons₂ _ ih
        have h2 : (y.values :: suf.map (fun x => x.values)).Sublist
            ((pre'.map (fun x => x.values)) ++ y.values :: suf.map (fun x => x.values)) :=
          List.sublist_append_right _ _
        exact (h1.trans h2).cons x.values
    · by_cases hx2 : x.depth ≤ D
      · rw [collapse, if_neg hx, if_pos hx2, List.map_cons, List.map_cons]
        exact List.Sublist.cons₂ _ (collapse_values_sublist_aux D n rest hlen)
      · rw [collapse, if_neg hx, if_neg hx2, List.map_cons]
        exact (collapse_values_sublist_aux D n rest hlen).cons _

/-- Packaging of `collapse_values_sublist_aux`. -/
theorem collapse_values_sublist (D : ℕ) (l : List LayerRFData) :
    ((collapse D l).map (fun x => x.values)).Sublist (l.map (fun x => x.values)) :=
  collapse_values_sublist_aux D l.length l (le_refl _)

/-- Collapsing can only delete entries from the non-null `jump`
sequence. -/
theorem collapse_jump_sublist (D : ℕ) (l : List LayerRFData) :
    ((collapse D l).filterMap (fun x => x.jump)).Sublist
      (l.filterMap (fun x => x.jump)) := by
  have h := (collapse_values_sublist D l).filterMap
    (fun v : RFValues => v.2.2.1)
  rw [List.filterMap_map, List.filterMap_map] at h
  exact h

/-- Collapsing can only delete entries from the non-null
`receptive_field` sequence. -/
theorem collapse_rf_sublist (D : ℕ) (l : List LayerRFData) :
    ((collapse D l).filterMap (fun x => x.receptive_field)).Sublist
      (l.filterMap (fun x => x.receptive_field)) := by
  have h := (collapse_values_sublist D l).filterMap
    (fun v : RFValues => v.2.2.2)
  rw [List.filterMap_map, List.filterMap_map] at h
  exact h

/-- C7: across the records returned by `get_rf_data` whose scalar
fields are non-null, `jump` and `receptive_field` are monotonically
non-decreasing, provided every conv/pool layer has stride ≥ 1 and
kernel ≥ 1. -/
theorem c7_jump_receptive_field_monotone :
    ∀ (m : Layer) (sh : ℤ × ℤ) (D : ℕ) (out : List LayerRFData),
      (∀ q ∈ iter_module m, layerOK q.2) →
      get_rf_data m sh D = .ok out →
      (out.filterMap (fun x => x.jump)).Pairwise (· ≤ ·) ∧
      (out.filterMap (fun x => x.receptive_field)).Pairwise (· ≤ ·) := by
  intro m sh D out hok h
  rw [get_rf_data] at h
  cases hp : propagate m.isConv2dRoot (initState sh) (iter_module m) with
  | error e => rw [hp] at h; simp [Except.map] at h
  | ok data =>
    rw [hp, Except.map] at h
    cases (Except.ok.injEq _ _).mp h
    have hm := propagate_mono (iter_module m) m.isConv2dRoot (initState sh) data
      hok hp (by norm_num [initState])
    exact ⟨hm.1.2.sublist (collapse_jump_sublist D data),
      hm.2.2.sublist (collapse_rf_sublist D data)⟩

/-- Witness for `c7_jump_receptive_field_monotone` on `t2conv`:
jumps [2, 4] and receptive fields [3, 7] are non-decreasing. -/
theorem c7_jump_receptive_field_monotone_witness :
    (([⟨0, "", "Sequential", none, none, none, none⟩,
       ⟨1, "├─ 0", "Conv2d", some (4, 4), some (1/2, 1/2), some 2, some 3⟩,
       ⟨1, "├─ 1", "Conv2d", some (2, 2), some (1/2, 1/2), some 4, some 7⟩] :
        List LayerRFData).filterMap (fun x => x.jump)).Pairwise (· ≤ ·) ∧
    (([⟨0, "", "Sequential", none, none, none, none⟩,
       ⟨1, "├─ 0", "Conv2d", some (4, 4), some (1/2, 1/2), some 2, some 3⟩,
       ⟨1, "├─ 1", "Conv2d", some (2, 2), some (1/2, 1/2), some 4, some 7⟩] :
        List LayerRFData).filterMap (fun x => x.receptive_field)).Pairwise (· ≤ ·) := by
  have hok : ∀ q ∈ iter_module t2conv, layerOK q.2 := by
    intro q hq
    simp only [iter_module, iter_module_from, iter_children, t2conv, Layer.childrenC,
      List.nil_append, List.append_nil, List.cons_append, List.mem_cons,
      List.not_mem_nil, or_false] at hq
    rcases hq with rfl | rfl | rfl
    · intro k s p hs
      simp [Layer.spatialParams] at hs
    · intro k s p hs
      simp only [Layer.spatialParams, Param.first, Option.some.injEq,
        Prod.mk.injEq] at hs
      obtain ⟨rfl, rfl, rfl⟩ := hs
      constructor <;> norm_num
    · intro k s p hs
      simp only [Layer.spatialParams, Param.first, Option.some.injEq,
        Prod.mk.injEq] at hs
      obtain ⟨rfl, rfl, rfl⟩ := hs
      constructor <;> norm_num
  have heval : get_rf_data t2conv (8, 8) 99999 = .ok
      [⟨0, "", "Sequential", none, none, none, none⟩,
       ⟨1, "├─ 0", "Conv2d", some (4, 4), some (1/2, 1/2), some 2, some 3⟩,
       ⟨1, "├─ 1", "Conv2d", some (2, 2), some (1/2, 1/2), some 4, some 7⟩] := by
    norm_num [get_rf_data, propagate, iter_module, iter_module_from, iter_children,
      convUpdate, initState, collapse, scanValues, Layer.isConv2dRoot, Layer.isSeq,
      is_custom_module, Layer.childrenC, Children.length, Layer.spatialParams, Param.first,
      pathDepth, displayName, Layer.className, LayerRFData.values,
      LayerRFData.replace_values, t2conv, Except.map]
    decide
  exact c7_jump_receptive_field_monotone t2conv (8, 8) 99999 _ hok heval

/-! ## Pre-order structure: what can follow a childless node -/

mutual
/-- In the pre-order flattening, the entry following a childless node
has a path no longer than the node's own path. -/
theorem chain_iter_module_from : ∀ (l : Layer) (pre : List String),
    List.Chain' (fun a b => a.2.childrenC = .nil → b.1.length ≤ a.1.length)
      (iter_module_from pre l)
  | .conv2d _ _ _, _ => List.chain'_singleton _
  | .maxpool2d _ _ _, _ => List.chain'_singleton _
  | .leaf _, _ => List.chain'_singleton _
  | .sequential cs, pre => by
    rw [show iter_module_from pre (.sequential cs)
      = (pre, .sequential cs) :: iter_children pre cs from rfl, List.chain'_cons']
    refine ⟨?_, chain_iter_children cs pre⟩
    intro y hy hnil
    cases cs with
    | nil => simp [iter_children] at hy
    | cons n c r => exact absurd hnil (by simp [Layer.childrenC])
  | .custom t cs, pre => by
    rw [show iter_module_from pre (.custom t cs)
      = (pre, .custom t cs) :: iter_children pre cs from rfl, List.chain'_cons']
    refine ⟨?_, chain_iter_children cs pre⟩
    intro y hy hnil
    cases cs with
    | nil => simp [iter_children] at hy
    | cons n c r => exact absurd hnil (by simp [Layer.childrenC])

/-- Same property for the concatenated children traversals. -/
theorem chain_iter_children : ∀ (cs : Children) (pre : List String),
    List.Chain' (fun a b => a.2.childrenC = .nil → b.1.length ≤ a.1.length)
      (iter_children pre cs)
  | .nil, _ => List.chain'_nil
  | .cons n c rest, pre => by
    rw [show iter_children pre (.cons n c rest)
      = iter_module_from (pre ++ [n]) c ++ iter_children pre rest from rfl,
      List.chain'_append]
    refine ⟨chain_iter_module_from c (pre ++ [n]), chain_iter_children rest pre, ?_⟩
    intro x hx y hy _
    have hxm : x ∈ iter_module_from (pre ++ [n]) c := by
      obtain ⟨hne, hxe⟩ := List.mem_getLast?_eq_getLast hx
      rw [hxe]
      exact List.getLast_mem hne
    have h1 := iter_module_from_path_le c (pre ++ [n]) x hxm
    have h2 := iter_children_head_len rest pre y (Option.mem_def.mp hy)
    simp only [List.length_append, List.length_singleton] at h1
    omega
end

/-- Transfer of the pre-order chain to the produced records: a record
with non-null scalars is followed (if at all) by a record of depth at
most its own. -/
theorem propagate_chain : ∀ (flat : List (List String × Layer)) (rc : Bool)
    (st : RFState) (data : List LayerRFData),
    propagate rc st flat = .ok data →
    List.Chain' (fun a b => a.2.childrenC = .nil → b.1.length ≤ a.1.length) flat →
    List.Chain' (fun a b => a.jump ≠ none → b.depth ≤ a.depth) data
  | [], _, _, data, h, _ => by
    rw [propagate] at h
    rw [← (Except.ok.injEq _ _).mp h]
    exact List.chain'_nil
  | (segs, l) :: rest, rc, st, data, h, hflat => by
    obtain ⟨rec, tail, st2, rfl, hp, hdep, himp⟩ :=
      propagate_cons rc st segs l rest data h
    obtain ⟨hbound, hftail⟩ := List.chain'_cons'.mp hflat
    rw [List.chain'_cons']
    refine ⟨?_, propagate_chain rest rc st2 tail hp hftail⟩
    intro y hy hjump
    have hnil : l.childrenC = .nil :=
      childrenC_nil_of_not_container l (himp hjump).1
    cases rest with
    | nil =>
      rw [propagate] at hp
      rw [← (Except.ok.injEq _ _).mp hp] at hy
      simp at hy
    | cons q2 rest2 =>
      obtain ⟨segs2, l2⟩ := q2
      obtain ⟨rec2, tail2, st3, hteq, _, hdep2, -⟩ :=
        propagate_cons rc st2 segs2 l2 rest2 tail hp
      rw [hteq, List.head?_cons, Option.mem_def] at hy
      rw [(Option.some.injEq _ _).mp hy.symm]
      have hb := hbound (segs2, l2) (by rw [List.head?_cons]; rfl) hnil
      rw [hdep, hdep2, pathDepth_eq_length, pathDepth_eq_length]
      exact hb

/-- C10 counterexample: no record with non-null scalar fields is ever
overwritten by the depth-collapse scan.  A record with non-null scalars
comes from a childless layer; in pre-order the entry after it is no
deeper, so for a record at depth `max_depth` the scan of lines 98-102
stops immediately and returns the record's own values.  Hence there is
no tree at all on which the collapse replaces a depth-`max_depth`
record's non-null fields (by null values or any other values). -/
theorem c10_counterexample_no_nonnull_overwrite :
    (∃ (m : Layer) (sh : ℤ × ℤ) (D : ℕ) (data : List LayerRFData) (i : ℕ),
      propagate m.isConv2dRoot (initState sh) (iter_module m) = .ok data ∧
      ∃ hi : i < data.length,
        (data.get ⟨i, hi⟩).depth = D ∧
        (data.get ⟨i, hi⟩).jump ≠ none ∧
        scanValues D (data.drop (i + 1)) ((data.get ⟨i, hi⟩).values)
          ≠ (data.get ⟨i, hi⟩).values) = False := by
  apply eq_false
  rintro ⟨m, sh, D, data, i, hp, hi, hdep, hjump, hscan⟩
  apply hscan
  have hchain := propagate_chain (iter_module m) m.isConv2dRoot (initState sh) data hp
    (chain_iter_module_from m [])
  cases hd : data.drop (i + 1) with
  | nil => rfl
  | cons y t =>
    have hi1 : i + 1 < data.length := by
      by_contra hcon
      have hnil : data.drop (i + 1) = [] := List.drop_eq_nil_of_le (by omega)
      rw [hnil] at hd
      simp at hd
    have hget : data.get ⟨i + 1, hi1⟩ = y := by
      have hh := List.head?_drop data (i + 1)
      rw [hd, List.head?_cons, List.getElem?_eq_getElem hi1] at hh
      rw [List.get_eq_getElem]
      exact ((Option.some.injEq _ _).mp hh).symm
    have hR := List.chain'_iff_get.mp hchain i (by omega)
    have hle : y.depth ≤ (data.get ⟨i, hi⟩).depth := by
      rw [← hget]
      exact hR hjump
    rw [scanValues, if_neg (by omega)]
